import Mathlib

/-!
Shallow embedding of `src/main.py` (tile-randomizer): a turn-based grid
puzzle driven by a weighted/uniform random-choice container (`ChoiceSet`),
a deception resolver (`determine_honesty`), direction inversion
(`flip_direction`) and the turn state machine (`PuzzleApp.make_step`).

Randomness is modelled by an oracle index (`pick : Nat`): a draw returns
the element of its drawable pool (the remaining options; for a weighted
set, the positive-weight remaining keys) at `pick % pool.length`, so
quantifying over `pick` covers every possible outcome of the draw.
Python exceptions are modelled with `Except String`.  The Textual rendering
(status text, field drawing) is out of scope; the turn outputs that the
rendering would show are captured in a `StepOutput` record.
-/

deriving instance DecidableEq for Except

namespace TileRandomizer

/-- Data held by a `ChoiceSet`: a plain option list (uniform draw, Python
`list`/`tuple`) or a key/weight association list (weighted draw, Python
`dict`; insertion order preserved, as in Python). -/
inductive ChoiceData where
  | uniform (options : List String)
  | weighted (options : List (String × Int))
deriving DecidableEq, Repr

/-- Source `ChoiceSet` (main.py lines 19-92): universal container of options.
The frozen dataclass has no validation of any kind at construction. -/
structure ChoiceSet where
  title : String
  data : ChoiceData
deriving DecidableEq, Repr

/-- The option values of the underlying data (keys, for the weighted form). -/
def ChoiceData.options : ChoiceData → List String
  | .uniform opts => opts
  | .weighted opts => opts.map Prod.fst

/-- Options surviving the exclusion filter, as built inside
`ChoiceSet.choose` (lines 76-83): `[v for v in data if v not in exclude]`
resp. `{k: v for k, v in data.items() if k not in exclude}`. -/
def ChoiceData.remaining (d : ChoiceData) (exclude : List String) : List String :=
  match d with
  | .uniform opts => opts.filter (fun v => decide (v ∉ exclude))
  | .weighted opts => (opts.filter (fun kv => decide (kv.1 ∉ exclude))).map Prod.fst

/-- The remaining key/weight pairs of a weighted container after the
exclusion filter: the dict comprehension of line 83. -/
def weighted_remaining (opts : List (String × Int)) (exclude : List String) :
    List (String × Int) :=
  opts.filter (fun kv => decide (kv.1 ∉ exclude))

/-- The keys that `random.choices(keys, weights)` (lines 86-90) can return
from the remaining weighted pool: a key is drawn with probability
proportional to its weight, so with non-negative weights exactly the
positive-weight keys are drawable (a zero-weight key has probability 0).
With some weights negative the source bisects a non-monotone cumulative
list; its outcomes still lie among the remaining keys, and the model
over-approximates them by all positive-weight remaining keys. -/
def weighted_support (opts : List (String × Int)) (exclude : List String) : List String :=
  ((weighted_remaining opts exclude).filter (fun kv => decide (0 < kv.2))).map Prod.fst

/-- Source `ChoiceSet.choose` (lines 67-92): raises `ValueError` when no
option survives the exclusion; a uniform draw (`random.choice`) returns one
of the remaining options; a weighted draw (`random.choices`) raises CPython's
`ValueError("Total of weights must be greater than zero")` when the remaining
weights sum to zero or less, and otherwise returns a positive-weight
remaining key.  The draw outcome is modelled by the oracle index `pick`
(the `List.getD` default is unreachable: a positive total forces a
positive-weight key to exist). -/
def ChoiceSet.choose (cs : ChoiceSet) (exclude : List String) (pick : Nat) :
    Except String String :=
  match cs.data with
  | .uniform opts =>
      if h : (opts.filter (fun v => decide (v ∉ exclude))).length = 0 then
        .error ("Нет доступных вариантов [" ++ cs.title ++ "] после исключения")
      else
        .ok ((opts.filter (fun v => decide (v ∉ exclude))).get
          ⟨pick % (opts.filter (fun v => decide (v ∉ exclude))).length,
           Nat.mod_lt _ (Nat.pos_of_ne_zero h)⟩)
  | .weighted opts =>
      if (weighted_remaining opts exclude).length = 0 then
        .error ("Нет доступных вариантов [" ++ cs.title ++ "] после исключения")
      else if 0 < ((weighted_remaining opts exclude).map Prod.snd).sum then
        .ok ((weighted_support opts exclude).getD
          (pick % (weighted_support opts exclude).length) "")
      else
        .error "Total of weights must be greater than zero"

/-- Source `determine_honesty` (lines 149-156): `True` means the head is lying.
A `Повтор` (Repeat) head is resolved by looking at the raw previous label
only (`previous_head if current_head == "Повтор" else current_head`);
the previous head is `None` on the first turn. -/
def determine_honesty (current_head : String) (previous_head : Option String) : Bool :=
  let head_type := if current_head = "Повтор" then previous_head else some current_head
  decide (head_type = some "Ложь")

/-- Source `flip_direction` (lines 159-173): invert a direction, with the
`dict.get` fallback string for unknown input. -/
def flip_direction (right_direction : String) : String :=
  if right_direction = "Вперёд" then "Назад"
  else if right_direction = "Назад" then "Вперёд"
  else if right_direction = "Влево" then "Вправо"
  else if right_direction = "Вправо" then "Влево"
  else if right_direction = "Вверх" then "Вниз"
  else if right_direction = "Вниз" then "Вверх"
  else "Что-то пошло не так..."

/-- The announced-direction fragment of `get_head_text` (lines 196-204):
truthful heads announce the actual direction; lying heads announce the
flipped direction unless that is itself in the (extended) ban list, in
which case the sentinel `"Выйди за поле"` is announced. -/
def direction_text (head_type : String) (previous_head_type : Option String)
    (straight_direction : String) (banned : List String) : String :=
  if determine_honesty head_type previous_head_type then
    let candidate := flip_direction straight_direction
    if candidate ∈ banned then "Выйди за поле" else candidate
  else
    straight_direction

/-- Source `GameState` (lines 220-227): positions are `(row, column)` pairs
(`Axis.Y = 0`, `Axis.X = 1`). -/
structure GameState where
  pos : Int × Int
  next_pos : Int × Int
  head : Option String
  width : Int
  length : Int
deriving DecidableEq, Repr

/-- Source `translate_direction` (lines 230-241): keyboard key to game direction;
`none` models the `KeyError` a lookup of an unknown key would raise. -/
def translate_direction (dir_eng : String) : Option String :=
  if dir_eng = "shift+up" then some "Вверх"
  else if dir_eng = "shift+down" then some "Вниз"
  else if dir_eng = "left" then some "Влево"
  else if dir_eng = "right" then some "Вправо"
  else if dir_eng = "up" then some "Вперёд"
  else if dir_eng = "down" then some "Назад"
  else none

/-- The raw `config.toml` contents that `read_config` (lines 95-146)
reads: field dimensions, the six direction weights, and the trait texts. -/
structure RawConfig where
  length : Int
  width : Int
  forward : Int
  backward : Int
  leftward : Int
  rightward : Int
  upward : Int
  downward : Int
  useful_title : String
  useful_truth : String
  useful_lies : String
  useful_repeat : String
  useless_titles : List String
  useless_data : List (List String)
deriving DecidableEq, Repr

/-- The tuple `read_config` returns (lines 138-146), as a record. -/
structure Config where
  length : Int
  width : Int
  directions_data : List (String × Int)
  useful_title : String
  useful_data : List String
  useless_titles : List String
  useless_data : List (List String)
deriving DecidableEq, Repr

/-- Source `read_config` (lines 95-146): validates the field dimensions and the
trait-list lengths; the direction weights are passed through unchecked. -/
def read_config (c : RawConfig) : Except String Config :=
  if c.length ≤ 0 ∨ c.width ≤ 0 then
    .error "Размеры поля не соответствуют требованиям!"
  else if c.useless_titles.length ≠ c.useless_data.length then
    .error "Кол-во заголовков и наборов данных для бесполезных признаков не одинаково!"
  else
    .ok { length := c.length
          width := c.width
          directions_data :=
            [("Вперёд", c.forward), ("Назад", c.backward), ("Влево", c.leftward),
             ("Вправо", c.rightward), ("Вверх", c.upward), ("Вниз", c.downward)]
          useful_title := c.useful_title
          useful_data := [c.useful_truth, c.useful_lies, c.useful_repeat]
          useless_titles := c.useless_titles
          useless_data := c.useless_data }

/-- The application state of `PuzzleApp`: the `ChoiceSet` attributes set by
`on_mount` plus the game state and the `waiting_for_exit` flag
(`getattr(self, "waiting_for_exit", False)` is modelled by the field
defaulting to `false` at mount). -/
structure PuzzleApp where
  heads : ChoiceSet
  directions : ChoiceSet
  useful_trait : ChoiceSet
  useless_traits : List ChoiceSet
  state : GameState
  waiting_for_exit : Bool
deriving DecidableEq, Repr

/-- Source `PuzzleApp.on_mount` (lines 268-300): re-reads the configuration and
builds a fresh game state; it never touches `waiting_for_exit`, so the
pre-existing flag value is passed in. -/
def on_mount (cfg : RawConfig) (waiting_for_exit : Bool) : Except String PuzzleApp :=
  match read_config cfg with
  | .error e => .error e
  | .ok c =>
      .ok { heads := ⟨"Головы", .uniform ["Правда", "Ложь", "Повтор"]⟩
            directions := ⟨"Направление движения", .weighted c.directions_data⟩
            useful_trait := ⟨c.useful_title, .uniform c.useful_data⟩
            useless_traits :=
              (c.useless_titles.zip c.useless_data).map (fun td => ⟨td.1, .uniform td.2⟩)
            state := { pos := (0, c.width / 2)
                       next_pos := (0, c.width / 2)
                       head := none
                       width := c.width
                       length := c.length }
            waiting_for_exit := waiting_for_exit }

/-- The state after `state.pos = state.next_pos.copy()` (line 341): the
staged position is committed; everything else is unchanged. -/
def committed (s : GameState) : GameState :=
  { pos := s.next_pos, next_pos := s.next_pos, head := s.head,
    width := s.width, length := s.length }

/-- The boundary ban list built at the top of `make_step` (lines 346-354),
in the source's append order. -/
def base_banned (s : GameState) : List String :=
  (if s.pos.1 - 1 < 0 then ["Назад"] else []) ++
  (if s.pos.1 + 1 > s.length - 1 then ["Вперёд"] else []) ++
  (if s.pos.2 - 1 < 0 then ["Влево"] else []) ++
  (if s.pos.2 + 1 > s.width - 1 then ["Вправо"] else [])

/-- The extra bans appended when the head lies (lines 365-373), in the
source's append order. -/
def lie_extension (s : GameState) : List String :=
  (if s.pos.1 - 1 < 0 then ["Вперёд"] else []) ++
  (if s.pos.1 + 1 > s.length - 1 then ["Назад"] else []) ++
  (if s.pos.2 - 1 < 0 then ["Вправо"] else []) ++
  (if s.pos.2 + 1 > s.width - 1 then ["Влево"] else [])

/-- The condition of line 365: the drawn head lies outright, or repeats a
previous head whose raw label was `Ложь` (one-step lookback). -/
def lying_head (head : String) (previous_head : Option String) : Prop :=
  head = "Ложь" ∨ (head = "Повтор" ∧ previous_head = some "Ложь")

instance (head : String) (previous_head : Option String) :
    Decidable (lying_head head previous_head) :=
  inferInstanceAs (Decidable (_ ∨ _))

/-- The ban list used for the direction draw: the boundary bans, extended
with the inverse bans (lines 365-373) when the head lies. -/
def turn_banned (s : GameState) (lying : Prop) [Decidable lying] : List String :=
  if lying then base_banned s ++ lie_extension s else base_banned s

/-- The displacement table of `make_step` (lines 376-381), with the
`dict.get` default `(0, 0)` for the decoy (and any unknown) directions. -/
def displacement (direction : String) : Int × Int :=
  if direction = "Вперёд" then (1, 0)
  else if direction = "Назад" then (-1, 0)
  else if direction = "Влево" then (0, -1)
  else if direction = "Вправо" then (0, 1)
  else (0, 0)

/-- Python's `forced not in banned` test (line 356), negated: `None` is
never a member of a list of strings, so a missing forced direction always
passes the test. -/
def forced_in_banned (forced : Option String) (banned : List String) : Prop :=
  match forced with
  | some f => f ∈ banned
  | none => False

instance (forced : Option String) (banned : List String) :
    Decidable (forced_in_banned forced banned) :=
  match forced with
  | some f => (inferInstance : Decidable (f ∈ banned))
  | none => isFalse (fun h => h)

/-- The per-turn observations a `make_step` call surfaces (via the rendered
status text in the source): whether `check_victory` reported the win, the
head drawn this call, the actual and announced directions, and the final
ban list used for the draws (`[]` when the call never built one). -/
structure StepOutput where
  reportedWon : Bool
  headDrawn : Option String
  direction : Option String
  announced : Option String
  banned : List String
deriving DecidableEq, Repr

/-- Source `PuzzleApp.make_step` (lines 336-399) together with `check_victory`
(lines 401-408).  The call first commits the staged `next_pos` into `pos`,
then checks victory; if the game is (now) over nothing further happens.
Otherwise it builds the boundary ban list; a forced direction that is
banned skips the whole turn body.  Otherwise a head is drawn (excluding
`Повтор` when there is no previous head), the ban list is extended when
the head lies (one-step lookback on the raw previous label), the actual
direction is the forced one (Python truthiness: an empty string falls
through to the draw) or is drawn excluding the ban list, and the staged
`next_pos` is advanced by the displacement. -/
def make_step (app : PuzzleApp) (forced : Option String) (pick_head pick_dir : Nat) :
    Except String (PuzzleApp × StepOutput) :=
  let s1 : GameState := committed app.state
  let won_now : Bool := decide (s1.pos.1 = s1.length - 1)
  if app.waiting_for_exit || won_now then
    .ok ({ app with state := s1, waiting_for_exit := app.waiting_for_exit || won_now },
         { reportedWon := won_now, headDrawn := none, direction := none,
           announced := none, banned := [] })
  else
    let banned := base_banned s1
    if forced_in_banned forced banned then
      .ok ({ app with state := s1 },
           { reportedWon := false, headDrawn := none, direction := none,
             announced := none, banned := banned })
    else
      let previous_head := s1.head
      let head_exclude : List String := match s1.head with
        | none => ["Повтор"]
        | some _ => []
      match app.heads.choose head_exclude pick_head with
      | .error e => .error e
      | .ok head =>
          let banned2 := turn_banned s1 (lying_head head previous_head)
          let dirRes : Except String String := match forced with
            | some f => if f = "" then app.directions.choose banned2 pick_dir else .ok f
            | none => app.directions.choose banned2 pick_dir
          match dirRes with
          | .error e => .error e
          | .ok direction =>
              let d := displacement direction
              .ok ({ app with
                       state := { s1 with
                                    head := some head
                                    next_pos := (s1.next_pos.1 + d.1, s1.next_pos.2 + d.2) } },
                   { reportedWon := false, headDrawn := some head,
                     direction := some direction,
                     announced := some (direction_text head previous_head direction banned2),
                     banned := banned2 })

/-- What a UI event handler did, as observable from outside. -/
inductive AppAction where
  | stepped (out : StepOutput)
  | restarted
  | exited
  | ignored
  | failed (e : String)
deriving DecidableEq, Repr

/-- Source `PuzzleApp.on_button_pressed` (lines 431-449): once `waiting_for_exit`
is set any press exits; otherwise the button id is dispatched in the
source's match order (`random_step`, `step_*` via `translate_direction`,
`restart` re-running `on_mount`, `quit`); an unmatched id falls through
silently. -/
def on_button_pressed (cfg : RawConfig) (app : PuzzleApp) (id : String)
    (pick_head pick_dir : Nat) : PuzzleApp × AppAction :=
  if app.waiting_for_exit then (app, .exited)
  else if id = "random_step" then
    match make_step app none pick_head pick_dir with
    | .ok r => (r.1, .stepped r.2)
    | .error e => (app, .failed e)
  else if "step_".data.isPrefixOf id.data then
    match translate_direction ((id.replace "step_" "").replace "_plus_" "+") with
    | none => (app, .failed "KeyError")
    | some d =>
        match make_step app (some d) pick_head pick_dir with
        | .ok r => (r.1, .stepped r.2)
        | .error e => (app, .failed e)
  else if id = "restart" then
    match on_mount cfg app.waiting_for_exit with
    | .ok a => (a, .restarted)
    | .error e => (app, .failed e)
  else if id = "quit" then (app, .exited)
  else (app, .ignored)

/-- Run a sequence of `make_step` calls; each input is the forced direction
and the two draw-oracle indices for that call. -/
def run (app : PuzzleApp) : List (Option String × Nat × Nat) →
    Except String (PuzzleApp × List StepOutput)
  | [] => .ok (app, [])
  | (f, ph, pd) :: rest =>
      match make_step app f ph pd with
      | .error e => .error e
      | .ok (app2, out) =>
          match run app2 rest with
          | .error e => .error e
          | .ok (app3, outs) => .ok (app3, out :: outs)

/-- The app states reachable for a given configuration: a mount (initial
start or a restart, with whatever `waiting_for_exit` flag was in force)
followed by any number of successful `make_step` calls. -/
inductive Reachable (cfg : RawConfig) : PuzzleApp → Prop
  | mount (w : Bool) (app : PuzzleApp) : on_mount cfg w = .ok app → Reachable cfg app
  | step (app app2 : PuzzleApp) (forced : Option String) (ph pd : Nat) (out : StepOutput) :
      Reachable cfg app → make_step app forced ph pd = .ok (app2, out) → Reachable cfg app2

/-- Per-turn honesty trace as the engine computes it: `make_step` threads
the raw previous label (`previous_head = state.head`) into
`determine_honesty` each turn. -/
def honesty_trace (previous : Option String) : List String → List Bool
  | [] => []
  | k :: rest => determine_honesty k previous :: honesty_trace (some k) rest

/-- Resolved truth-values per the specification: a `Повтор` head inherits
the resolved value of the nearest preceding non-`Повтор` head (the carried
accumulator), regardless of chain length.  The accumulator starts at
`false`; the engine never draws `Повтор` on the first turn. -/
def chain_resolved_from (acc : Bool) : List String → List Bool
  | [] => []
  | k :: rest =>
      let cur := if k = "Повтор" then acc else decide (k = "Ложь")
      cur :: chain_resolved_from cur rest

/-- A concrete configuration with the given field dimensions, all six
direction weights equal to 1, and minimal trait texts. -/
def demoCfg (l w : Int) : RawConfig :=
  { length := l, width := w, forward := 1, backward := 1, leftward := 1,
    rightward := 1, upward := 1, downward := 1,
    useful_title := "Полезный признак",
    useful_truth := "правдива", useful_lies := "лжива", useful_repeat := "повторяет",
    useless_titles := [], useless_data := [] }

/-- The freshly mounted app for `demoCfg 8 5` (start position `(0, 2)`). -/
def app85 : PuzzleApp :=
  { heads := ⟨"Головы", .uniform ["Правда", "Ложь", "Повтор"]⟩
    directions := ⟨"Направление движения", .weighted
      [("Вперёд", 1), ("Назад", 1), ("Влево", 1), ("Вправо", 1), ("Вверх", 1), ("Вниз", 1)]⟩
    useful_trait := ⟨"Полезный признак", .uniform ["правдива", "лжива", "повторяет"]⟩
    useless_traits := []
    state := { pos := (0, 2), next_pos := (0, 2), head := none, width := 5, length := 8 }
    waiting_for_exit := false }

/-- The freshly mounted app for `demoCfg 2 2` (start position `(0, 1)`). -/
def app22 : PuzzleApp :=
  { heads := ⟨"Головы", .uniform ["Правда", "Ложь", "Повтор"]⟩
    directions := ⟨"Направление движения", .weighted
      [("Вперёд", 1), ("Назад", 1), ("Влево", 1), ("Вправо", 1), ("Вверх", 1), ("Вниз", 1)]⟩
    useful_trait := ⟨"Полезный признак", .uniform ["правдива", "лжива", "повторяет"]⟩
    useless_traits := []
    state := { pos := (0, 1), next_pos := (0, 1), head := none, width := 2, length := 2 }
    waiting_for_exit := false }

/-- Configuration `demoCfg 8 5` with a zero weight for the forward direction. -/
def zeroWeightCfg : RawConfig := { demoCfg 8 5 with forward := 0 }

/-- Configuration `demoCfg 8 5` with a negative weight for the backward direction. -/
def negWeightCfg : RawConfig := { demoCfg 8 5 with backward := -3 }

/-- A weighted container whose remaining pool after excluding `"b"` is the
non-empty `[("a", 0)]` with weight total zero: `random.choices` raises on
it at draw time. -/
def zeroTotalChoice : ChoiceSet := ⟨"Зелья", .weighted [("a", 0), ("b", 5)]⟩

/-- The static part of the app plus the positional invariant: the choice
containers are the ones `on_mount` builds from the configuration, the
stored dimensions are the configured ones, and both the committed and the
staged position are inside the grid. -/
def AppInv (cfg : RawConfig) (app : PuzzleApp) : Prop :=
  app.heads = ⟨"Головы", .uniform ["Правда", "Ложь", "Повтор"]⟩ ∧
  app.directions = ⟨"Направление движения", .weighted
    [("Вперёд", cfg.forward), ("Назад", cfg.backward), ("Влево", cfg.leftward),
     ("Вправо", cfg.rightward), ("Вверх", cfg.upward), ("Вниз", cfg.downward)]⟩ ∧
  app.state.length = cfg.length ∧ app.state.width = cfg.width ∧
  0 ≤ app.state.pos.1 ∧ app.state.pos.1 ≤ cfg.length - 1 ∧
  0 ≤ app.state.pos.2 ∧ app.state.pos.2 ≤ cfg.width - 1 ∧
  0 ≤ app.state.next_pos.1 ∧ app.state.next_pos.1 ≤ cfg.length - 1 ∧
  0 ≤ app.state.next_pos.2 ∧ app.state.next_pos.2 ≤ cfg.width - 1

/-!  ## Helper lemmas about the random-choice container  -/

@[simp] theorem committed_pos (s : GameState) : (committed s).pos = s.next_pos := rfl

@[simp] theorem committed_next_pos (s : GameState) :
    (committed s).next_pos = s.next_pos := rfl

@[simp] theorem committed_head (s : GameState) : (committed s).head = s.head := rfl

@[simp] theorem committed_width (s : GameState) : (committed s).width = s.width := rfl

@[simp] theorem committed_length (s : GameState) : (committed s).length = s.length := rfl

theorem mem_remaining {d : ChoiceData} {exclude : List String} {x : String} :
    x ∈ d.remaining exclude ↔ x ∈ d.options ∧ x ∉ exclude := by
  cases d with
  | uniform opts =>
      simp [ChoiceData.remaining, ChoiceData.options, List.mem_filter]
  | weighted opts =>
      constructor
      · intro hx
        rcases List.mem_map.mp hx with ⟨kv, hkv, rfl⟩
        rcases List.mem_filter.mp hkv with ⟨hmem, hdec⟩
        exact ⟨List.mem_map.mpr ⟨kv, hmem, rfl⟩, of_decide_eq_true hdec⟩
      · rintro ⟨hx, hnx⟩
        rcases List.mem_map.mp hx with ⟨kv, hkv, rfl⟩
        exact List.mem_map.mpr ⟨kv, List.mem_filter.mpr ⟨hkv, decide_eq_true hnx⟩, rfl⟩

theorem support_subset {opts : List (String × Int)} {exclude : List String} {x : String}
    (h : x ∈ weighted_support opts exclude) :
    x ∈ (ChoiceData.weighted opts).remaining exclude := by
  rcases List.mem_map.mp h with ⟨kv, hkv, rfl⟩
  rcases List.mem_filter.mp hkv with ⟨hmem, -⟩
  exact List.mem_map.mpr ⟨kv, hmem, rfl⟩

theorem support_ne_nil {opts : List (String × Int)} {exclude : List String}
    (h : 0 < ((weighted_remaining opts exclude).map Prod.snd).sum) :
    weighted_support opts exclude ≠ [] := by
  intro hnil
  unfold weighted_support at hnil
  rw [List.map_eq_nil] at hnil
  have hall : ∀ w ∈ (weighted_remaining opts exclude).map Prod.snd, w ≤ 0 := by
    intro w hw
    rcases List.mem_map.mp hw with ⟨kv, hkv, rfl⟩
    have := List.filter_eq_nil.mp hnil kv hkv
    simpa using this
  have hsum : ∀ (l : List Int), (∀ w ∈ l, w ≤ 0) → l.sum ≤ 0 := by
    intro l
    induction l with
    | nil => simp
    | cons a t ih =>
        intro hws
        have h1 := hws a (by simp)
        have h2 := ih (fun w hw => hws w (List.mem_cons_of_mem _ hw))
        simp only [List.sum_cons]
        omega
  have := hsum _ hall
  omega

theorem getD_mod_mem {l : List String} (h : l ≠ []) (n : Nat) :
    l.getD (n % l.length) "" ∈ l := by
  have hpos : 0 < l.length := List.length_pos.mpr h
  have hlt : n % l.length < l.length := Nat.mod_lt _ hpos
  rw [List.getD_eq_get _ _ hlt]
  exact List.get_mem _ _ _

theorem choose_ok_mem {cs : ChoiceSet} {exclude : List String} {pick : Nat} {x : String}
    (h : cs.choose exclude pick = .ok x) : x ∈ cs.data.remaining exclude := by
  obtain ⟨title, data⟩ := cs
  cases data with
  | uniform opts =>
      simp only [ChoiceSet.choose] at h
      split at h
      · exact absurd h (by simp)
      · cases h
        exact List.get_mem _ _ _
  | weighted opts =>
      simp only [ChoiceSet.choose] at h
      split at h
      · exact absurd h (by simp)
      · split at h
        · next htot =>
            simp only [Except.ok.injEq] at h
            subst h
            exact support_subset (getD_mod_mem (support_ne_nil htot) _)
        · exact absurd h (by simp)

theorem choose_ok_total_uniform (cs : ChoiceSet) (opts : List String)
    (exclude : List String) (pick : Nat) (x : String)
    (hdata : cs.data = .uniform opts) (hx : x ∈ opts) (hnx : x ∉ exclude) :
    ∃ y, cs.choose exclude pick = .ok y := by
  obtain ⟨title, data⟩ := cs
  have hdata2 : data = .uniform opts := hdata
  subst hdata2
  have hmem : x ∈ opts.filter (fun v => decide (v ∉ exclude)) :=
    List.mem_filter.mpr ⟨hx, decide_eq_true hnx⟩
  simp only [ChoiceSet.choose]
  split
  · next hlen => exact absurd (List.length_eq_zero.mp hlen) (List.ne_nil_of_mem hmem)
  · exact ⟨_, rfl⟩

theorem choose_ok_total_weighted (cs : ChoiceSet) (opts : List (String × Int))
    (exclude : List String) (pick : Nat) (x : String)
    (hdata : cs.data = .weighted opts) (hpos : ∀ kv ∈ opts, 0 < kv.2)
    (hx : x ∈ opts.map Prod.fst) (hnx : x ∉ exclude) :
    ∃ y, cs.choose exclude pick = .ok y := by
  obtain ⟨title, data⟩ := cs
  have hdata2 : data = .weighted opts := hdata
  subst hdata2
  rcases List.mem_map.mp hx with ⟨kv, hkv, rfl⟩
  have hrem : kv ∈ weighted_remaining opts exclude :=
    List.mem_filter.mpr ⟨hkv, decide_eq_true hnx⟩
  have hlen : ¬ (weighted_remaining opts exclude).length = 0 := by
    intro h0
    exact List.ne_nil_of_mem hrem (List.length_eq_zero.mp h0)
  have htot : 0 < ((weighted_remaining opts exclude).map Prod.snd).sum := by
    refine List.sum_pos _ ?_ ?_
    · intro w hw
      rcases List.mem_map.mp hw with ⟨kv2, hkv2, rfl⟩
      exact hpos kv2 (List.mem_of_mem_filter hkv2)
    · intro hmapnil
      rw [List.map_eq_nil] at hmapnil
      exact List.ne_nil_of_mem hrem hmapnil
  simp only [ChoiceSet.choose]
  rw [if_neg hlen, if_pos htot]
  exact ⟨_, rfl⟩

theorem choose_ok_not_excluded {cs : ChoiceSet} {exclude : List String} {pick : Nat}
    {x : String} (h : cs.choose exclude pick = .ok x) : x ∉ exclude :=
  (mem_remaining.mp (choose_ok_mem h)).2

/-!  ## Helper lemmas about the ban lists  -/

theorem mem_ite_cons {c : Prop} [Decidable c] {x a : String} :
    x ∈ (if c then [a] else []) ↔ x = a ∧ c := by
  split_ifs with h <;> simp [h]

theorem mem_base_banned {s : GameState} {x : String} :
    x ∈ base_banned s ↔
      (x = "Назад" ∧ s.pos.1 - 1 < 0) ∨ (x = "Вперёд" ∧ s.pos.1 + 1 > s.length - 1) ∨
      (x = "Влево" ∧ s.pos.2 - 1 < 0) ∨ (x = "Вправо" ∧ s.pos.2 + 1 > s.width - 1) := by
  simp only [base_banned, List.mem_append, mem_ite_cons]
  tauto

theorem mem_lie_extension {s : GameState} {x : String} :
    x ∈ lie_extension s ↔
      (x = "Вперёд" ∧ s.pos.1 - 1 < 0) ∨ (x = "Назад" ∧ s.pos.1 + 1 > s.length - 1) ∨
      (x = "Вправо" ∧ s.pos.2 - 1 < 0) ∨ (x = "Влево" ∧ s.pos.2 + 1 > s.width - 1) := by
  simp only [lie_extension, List.mem_append, mem_ite_cons]
  tauto

theorem base_banned_cardinal {s : GameState} {x : String} (h : x ∈ base_banned s) :
    x = "Назад" ∨ x = "Вперёд" ∨ x = "Влево" ∨ x = "Вправо" := by
  rcases mem_base_banned.mp h with ⟨h, _⟩ | ⟨h, _⟩ | ⟨h, _⟩ | ⟨h, _⟩ <;> tauto

theorem lie_extension_cardinal {s : GameState} {x : String} (h : x ∈ lie_extension s) :
    x = "Назад" ∨ x = "Вперёд" ∨ x = "Влево" ∨ x = "Вправо" := by
  rcases mem_lie_extension.mp h with ⟨h, _⟩ | ⟨h, _⟩ | ⟨h, _⟩ | ⟨h, _⟩ <;> tauto

/-- Any direction allowed by the boundary ban list keeps the position in
bounds: the core safety argument for the actual move. -/
theorem displacement_in_bounds {s : GameState} {dir : String}
    (hy0 : 0 ≤ s.pos.1) (hy1 : s.pos.1 ≤ s.length - 1)
    (hx0 : 0 ≤ s.pos.2) (hx1 : s.pos.2 ≤ s.width - 1)
    (hdir : dir ∉ base_banned s) :
    0 ≤ s.pos.1 + (displacement dir).1 ∧ s.pos.1 + (displacement dir).1 ≤ s.length - 1 ∧
    0 ≤ s.pos.2 + (displacement dir).2 ∧ s.pos.2 + (displacement dir).2 ≤ s.width - 1 := by
  unfold displacement
  split_ifs with h1 h2 h3 h4
  · subst h1
    have hb : ¬ s.pos.1 + 1 > s.length - 1 :=
      fun hc => hdir (mem_base_banned.mpr (Or.inr (Or.inl ⟨rfl, hc⟩)))
    refine ⟨by omega, by simpa using by omega, by omega, by omega⟩
  · subst h2
    have hb : ¬ s.pos.1 - 1 < 0 :=
      fun hc => hdir (mem_base_banned.mpr (Or.inl ⟨rfl, hc⟩))
    refine ⟨by omega, by omega, by omega, by omega⟩
  · subst h3
    have hb : ¬ s.pos.2 - 1 < 0 :=
      fun hc => hdir (mem_base_banned.mpr (Or.inr (Or.inr (Or.inl ⟨rfl, hc⟩))))
    refine ⟨by omega, by omega, by omega, by omega⟩
  · subst h4
    have hb : ¬ s.pos.2 + 1 > s.width - 1 :=
      fun hc => hdir (mem_base_banned.mpr (Or.inr (Or.inr (Or.inr ⟨rfl, hc⟩))))
    refine ⟨by omega, by omega, by omega, by omega⟩
  · refine ⟨by omega, by omega, by omega, by omega⟩

theorem turn_banned_sub_base {s : GameState} {L : Prop} [Decidable L] {dir : String}
    (h : dir ∉ turn_banned s L) : dir ∉ base_banned s := by
  unfold turn_banned at h
  split at h
  · exact fun hc => h (List.mem_append.mpr (Or.inl hc))
  · exact h

theorem turn_banned_cardinal {s : GameState} {L : Prop} [Decidable L] {x : String}
    (h : x ∈ turn_banned s L) :
    x = "Назад" ∨ x = "Вперёд" ∨ x = "Влево" ∨ x = "Вправо" := by
  unfold turn_banned at h
  split at h
  · rcases List.mem_append.mp h with h | h
    · exact base_banned_cardinal h
    · exact lie_extension_cardinal h
  · exact base_banned_cardinal h

theorem up_not_turn_banned {s : GameState} {L : Prop} [Decidable L] :
    "Вверх" ∉ turn_banned s L := by
  intro h
  rcases turn_banned_cardinal h with h | h | h | h <;> exact absurd h (by decide)

theorem down_not_turn_banned {s : GameState} {L : Prop} [Decidable L] :
    "Вниз" ∉ turn_banned s L := by
  intro h
  rcases turn_banned_cardinal h with h | h | h | h <;> exact absurd h (by decide)

/-- The engine's one-step lying condition coincides with the value of
`determine_honesty`. -/
theorem lying_head_iff {head : String} {previous_head : Option String} :
    lying_head head previous_head ↔ determine_honesty head previous_head = true := by
  unfold lying_head determine_honesty
  by_cases h : head = "Повтор"
  · subst h
    simp
  · simp [h]

/-!  ## Branch equations and inversion for `make_step`  -/

theorem make_step_final (app : PuzzleApp) (forced : Option String) (ph pd : Nat)
    (h : app.waiting_for_exit = true ∨ app.state.next_pos.1 = app.state.length - 1) :
    make_step app forced ph pd = .ok
      ({ app with
          state := committed app.state
          waiting_for_exit := true },
       { reportedWon := decide (app.state.next_pos.1 = app.state.length - 1),
         headDrawn := none, direction := none, announced := none, banned := [] }) := by
  rcases h with h | h
  · simp [make_step, h]
  · simp [make_step, h]

theorem make_step_noop (app : PuzzleApp) (forced : Option String) (ph pd : Nat)
    (hw : app.waiting_for_exit = false)
    (hnw : ¬ app.state.next_pos.1 = app.state.length - 1)
    (hfb : forced_in_banned forced (base_banned (committed app.state))) :
    make_step app forced ph pd = .ok
      ({ app with state := committed app.state },
       { reportedWon := false, headDrawn := none, direction := none, announced := none,
         banned := base_banned (committed app.state) }) := by
  simp [make_step, hw, hnw, hfb]

theorem make_step_step (app : PuzzleApp) (forced : Option String) (ph pd : Nat)
    (head dir : String)
    (hw : app.waiting_for_exit = false)
    (hnw : ¬ app.state.next_pos.1 = app.state.length - 1)
    (hfb : ¬ forced_in_banned forced (base_banned (committed app.state)))
    (hch : app.heads.choose
      (match app.state.head with | none => ["Повтор"] | some _ => []) ph = .ok head)
    (hdr : (match forced with
            | some f => if f = "" then
                app.directions.choose (turn_banned (committed app.state)
                  (lying_head head app.state.head)) pd
              else Except.ok f
            | none => app.directions.choose (turn_banned (committed app.state)
                (lying_head head app.state.head)) pd) = .ok dir) :
    make_step app forced ph pd = .ok
      ({ app with
          state := { committed app.state with
                      head := some head
                      next_pos := (app.state.next_pos.1 + (displacement dir).1,
                                   app.state.next_pos.2 + (displacement dir).2) } },
       { reportedWon := false, headDrawn := some head, direction := some dir,
         announced := some (direction_text head app.state.head dir
           (turn_banned (committed app.state) (lying_head head app.state.head))),
         banned := turn_banned (committed app.state)
           (lying_head head app.state.head) }) := by
  simp [make_step, hw, hnw, hfb, hch, hdr]

theorem make_step_head_error (app : PuzzleApp) (forced : Option String) (ph pd : Nat)
    (e : String)
    (hw : app.waiting_for_exit = false)
    (hnw : ¬ app.state.next_pos.1 = app.state.length - 1)
    (hfb : ¬ forced_in_banned forced (base_banned (committed app.state)))
    (hch : app.heads.choose
      (match app.state.head with | none => ["Повтор"] | some _ => []) ph = .error e) :
    make_step app forced ph pd = .error e := by
  simp [make_step, hw, hnw, hfb, hch]

theorem make_step_dir_error (app : PuzzleApp) (forced : Option String) (ph pd : Nat)
    (head e : String)
    (hw : app.waiting_for_exit = false)
    (hnw : ¬ app.state.next_pos.1 = app.state.length - 1)
    (hfb : ¬ forced_in_banned forced (base_banned (committed app.state)))
    (hch : app.heads.choose
      (match app.state.head with | none => ["Повтор"] | some _ => []) ph = .ok head)
    (hdr : (match forced with
            | some f => if f = "" then
                app.directions.choose (turn_banned (committed app.state)
                  (lying_head head app.state.head)) pd
              else Except.ok f
            | none => app.directions.choose (turn_banned (committed app.state)
                (lying_head head app.state.head)) pd) = .error e) :
    make_step app forced ph pd = .error e := by
  simp [make_step, hw, hnw, hfb, hch, hdr]

theorem make_step_ok_cases {app app2 : PuzzleApp} {forced : Option String} {ph pd : Nat}
    {out : StepOutput} (h : make_step app forced ph pd = .ok (app2, out)) :
    app2.heads = app.heads ∧ app2.directions = app.directions ∧
    app2.state.length = app.state.length ∧ app2.state.width = app.state.width ∧
    app2.state.pos = app.state.next_pos ∧
    (((app.waiting_for_exit = true ∨ app.state.next_pos.1 = app.state.length - 1) ∧
      app2.state.next_pos = app.state.next_pos ∧ app2.state.head = app.state.head ∧
      app2.waiting_for_exit = true ∧ out.headDrawn = none ∧ out.direction = none ∧
      out.reportedWon = decide (app.state.next_pos.1 = app.state.length - 1)) ∨
     (app.waiting_for_exit = false ∧ app.state.next_pos.1 ≠ app.state.length - 1 ∧
      forced_in_banned forced (base_banned (committed app.state)) ∧
      app2.state.next_pos = app.state.next_pos ∧ app2.state.head = app.state.head ∧
      app2.waiting_for_exit = false ∧ out.headDrawn = none ∧ out.direction = none ∧
      out.reportedWon = false ∧
      out.banned = base_banned (committed app.state)) ∨
     (app.waiting_for_exit = false ∧ app.state.next_pos.1 ≠ app.state.length - 1 ∧
      ¬ forced_in_banned forced (base_banned (committed app.state)) ∧
      ∃ head dir,
        app.heads.choose
          (match app.state.head with | none => ["Повтор"] | some _ => []) ph = .ok head ∧
        out = { reportedWon := false, headDrawn := some head, direction := some dir,
                announced := some (direction_text head app.state.head dir
                  (turn_banned (committed app.state) (lying_head head app.state.head))),
                banned := turn_banned (committed app.state)
                  (lying_head head app.state.head) } ∧
        app2.state.head = some head ∧ app2.waiting_for_exit = false ∧
        dir ∉ base_banned (committed app.state) ∧
        app2.state.next_pos = (app.state.next_pos.1 + (displacement dir).1,
                               app.state.next_pos.2 + (displacement dir).2))) := by
  by_cases hw : app.waiting_for_exit = true
  · rw [make_step_final app forced ph pd (Or.inl hw)] at h
    simp only [Except.ok.injEq, Prod.mk.injEq] at h
    obtain ⟨ha, ho⟩ := h
    subst ha; subst ho
    exact ⟨rfl, rfl, rfl, rfl, rfl, Or.inl ⟨Or.inl hw, rfl, rfl, rfl, rfl, rfl, rfl⟩⟩
  · have hw' : app.waiting_for_exit = false := by simpa using hw
    by_cases hnw : app.state.next_pos.1 = app.state.length - 1
    · rw [make_step_final app forced ph pd (Or.inr hnw)] at h
      simp only [Except.ok.injEq, Prod.mk.injEq] at h
      obtain ⟨ha, ho⟩ := h
      subst ha; subst ho
      exact ⟨rfl, rfl, rfl, rfl, rfl, Or.inl ⟨Or.inr hnw, rfl, rfl, rfl, rfl, rfl, rfl⟩⟩
    · by_cases hfb : forced_in_banned forced (base_banned (committed app.state))
      · rw [make_step_noop app forced ph pd hw' hnw hfb] at h
        simp only [Except.ok.injEq, Prod.mk.injEq] at h
        obtain ⟨ha, ho⟩ := h
        subst ha; subst ho
        exact ⟨rfl, rfl, rfl, rfl, rfl,
          Or.inr (Or.inl ⟨hw', hnw, hfb, rfl, rfl, hw', rfl, rfl, rfl, rfl⟩)⟩
      · cases hch : app.heads.choose
          (match app.state.head with | none => ["Повтор"] | some _ => []) ph with
        | error e =>
            rw [make_step_head_error app forced ph pd e hw' hnw hfb hch] at h
            exact absurd h (by simp)
        | ok head =>
            cases hdr : (match forced with
              | some f => if f = "" then
                  app.directions.choose (turn_banned (committed app.state)
                    (lying_head head app.state.head)) pd
                else Except.ok f
              | none => app.directions.choose (turn_banned (committed app.state)
                  (lying_head head app.state.head)) pd) with
            | error e =>
                rw [make_step_dir_error app forced ph pd head e hw' hnw hfb hch hdr] at h
                exact absurd h (by simp)
            | ok dir =>
                rw [make_step_step app forced ph pd head dir hw' hnw hfb hch hdr] at h
                simp only [Except.ok.injEq, Prod.mk.injEq] at h
                obtain ⟨ha, ho⟩ := h
                subst ha; subst ho
                refine ⟨rfl, rfl, rfl, rfl, rfl,
                  Or.inr (Or.inr ⟨hw', hnw, hfb,
                    ⟨head, dir, rfl, rfl, rfl, hw', ?_, rfl⟩⟩)⟩
                rcases forced with _ | f
                · exact turn_banned_sub_base (choose_ok_not_excluded hdr)
                · dsimp only at hdr
                  by_cases hf : f = ""
                  · rw [if_pos hf] at hdr
                    exact turn_banned_sub_base (choose_ok_not_excluded hdr)
                  · rw [if_neg hf] at hdr
                    have hfd : f = dir := by simpa using hdr
                    exact hfd ▸ hfb

theorem make_step_total (app : PuzzleApp) (forced : Option String) (ph pd : Nat)
    (hopts : List String) (hH : app.heads.data = .uniform hopts)
    (hh : "Правда" ∈ hopts)
    (dopts : List (String × Int)) (hD : app.directions.data = .weighted dopts)
    (hdpos : ∀ kv ∈ dopts, 0 < kv.2) (hd : "Вверх" ∈ dopts.map Prod.fst) :
    ∃ r, make_step app forced ph pd = .ok r := by
  by_cases hw : app.waiting_for_exit = true
  · exact ⟨_, make_step_final app forced ph pd (Or.inl hw)⟩
  have hw' : app.waiting_for_exit = false := by simpa using hw
  by_cases hnw : app.state.next_pos.1 = app.state.length - 1
  · exact ⟨_, make_step_final app forced ph pd (Or.inr hnw)⟩
  by_cases hfb : forced_in_banned forced (base_banned (committed app.state))
  · exact ⟨_, make_step_noop app forced ph pd hw' hnw hfb⟩
  obtain ⟨head, hch⟩ := choose_ok_total_uniform app.heads hopts
    (match app.state.head with | none => ["Повтор"] | some _ => []) ph "Правда" hH hh
    (by cases app.state.head <;> simp)
  obtain ⟨dir, hdr⟩ : ∃ dir, (match forced with
      | some f => if f = "" then
          app.directions.choose (turn_banned (committed app.state)
            (lying_head head app.state.head)) pd
        else Except.ok f
      | none => app.directions.choose (turn_banned (committed app.state)
          (lying_head head app.state.head)) pd) = .ok dir := by
    rcases forced with _ | f
    · exact choose_ok_total_weighted app.directions dopts _ pd "Вверх" hD hdpos hd
        up_not_turn_banned
    · by_cases hf : f = ""
      · simp only [hf, if_pos]
        exact choose_ok_total_weighted app.directions dopts _ pd "Вверх" hD hdpos hd
          up_not_turn_banned
      · exact ⟨f, by simp [hf]⟩
  exact ⟨_, make_step_step app forced ph pd head dir hw' hnw hfb hch hdr⟩

theorem on_mount_ok_inv {cfg : RawConfig} {w : Bool} {app : PuzzleApp}
    (h : on_mount cfg w = .ok app) :
    0 < cfg.length ∧ 0 < cfg.width ∧
    app.heads = ⟨"Головы", .uniform ["Правда", "Ложь", "Повтор"]⟩ ∧
    app.directions = ⟨"Направление движения", .weighted
      [("Вперёд", cfg.forward), ("Назад", cfg.backward), ("Влево", cfg.leftward),
       ("Вправо", cfg.rightward), ("Вверх", cfg.upward), ("Вниз", cfg.downward)]⟩ ∧
    app.state = { pos := (0, cfg.width / 2), next_pos := (0, cfg.width / 2),
                  head := none, width := cfg.width, length := cfg.length } ∧
    app.waiting_for_exit = w := by
  unfold on_mount read_config at h
  by_cases h1 : cfg.length ≤ 0 ∨ cfg.width ≤ 0
  · rw [if_pos h1] at h
    exact absurd h (by simp)
  · rw [if_neg h1] at h
    by_cases h2 : cfg.useless_titles.length ≠ cfg.useless_data.length
    · rw [if_pos h2] at h
      exact absurd h (by simp)
    · rw [if_neg h2] at h
      simp only [Except.ok.injEq] at h
      subst h
      push_neg at h1
      exact ⟨h1.1, h1.2, rfl, rfl, rfl, rfl⟩
theorem reachable_inv {cfg : RawConfig} {app : PuzzleApp} (hr : Reachable cfg app) :
    AppInv cfg app := by
  induction hr with
  | mount w app hm =>
      obtain ⟨hl, hw, hheads, hdirs, hstate, -⟩ := on_mount_ok_inv hm
      refine ⟨hheads, hdirs, ?_, ?_, ?_, ?_, ?_, ?_, ?_, ?_, ?_, ?_⟩ <;>
        simp [hstate] <;> omega
  | step app app2 forced ph pd out hr hstep IH =>
      obtain ⟨hH, hD, hL, hW, hPos, hcases⟩ := make_step_ok_cases hstep
      obtain ⟨ihH, ihD, ihL, ihW, hp1, hp2, hp3, hp4, hn1, hn2, hn3, hn4⟩ := IH
      refine ⟨hH ▸ ihH, hD ▸ ihD, hL ▸ ihL, hW ▸ ihW, ?_, ?_, ?_, ?_, ?_, ?_, ?_, ?_⟩
      · rw [hPos]; exact hn1
      · rw [hPos]; exact hn2
      · rw [hPos]; exact hn3
      · rw [hPos]; exact hn4
      all_goals {
        rcases hcases with ⟨-, hnext, -⟩ | ⟨-, -, -, hnext, -⟩ |
          ⟨-, -, -, head, dir, -, -, -, -, hdirn, hnext⟩
        · rw [hnext]; first | exact hn1 | exact hn2 | exact hn3 | exact hn4
        · rw [hnext]; first | exact hn1 | exact hn2 | exact hn3 | exact hn4
        · have hb := displacement_in_bounds
            (show (0:Int) ≤ (committed app.state).pos.1 from hn1)
            (show (committed app.state).pos.1 ≤ (committed app.state).length - 1 from by
              simp only [committed_pos, committed_length, ihL]; exact hn2)
            (show (0:Int) ≤ (committed app.state).pos.2 from hn3)
            (show (committed app.state).pos.2 ≤ (committed app.state).width - 1 from by
              simp only [committed_pos, committed_width, ihW]; exact hn4)
            hdirn
          rw [hnext]
          simp only [committed_pos, committed_length, committed_width, ihL, ihW] at hb
          first | exact hb.1 | exact hb.2.1 | exact hb.2.2.1 | exact hb.2.2.2
      }

theorem committed_eq_self {s : GameState} (h : s.pos = s.next_pos) : committed s = s := by
  cases s
  simp_all [committed]

theorem run_cons {app a2 a3 : PuzzleApp} {f : Option String} {ph pd : Nat}
    {rest : List (Option String × Nat × Nat)} {out : StepOutput} {outs : List StepOutput}
    (h1 : make_step app f ph pd = .ok (a2, out)) (h2 : run a2 rest = .ok (a3, outs)) :
    run app ((f, ph, pd) :: rest) = .ok (a3, out :: outs) := by
  simp [run, h1, h2]

theorem step_fwd (app : PuzzleApp) (ph pd : Nat) (k : Int)
    (hH : app.heads = ⟨"Головы", .uniform ["Правда", "Ложь", "Повтор"]⟩)
    (hw : app.waiting_for_exit = false)
    (hl : app.state.length = 8) (hwd : app.state.width = 5)
    (hnext : app.state.next_pos = (k, 2)) (hk0 : 0 ≤ k) (hk : k < 7) :
    ∃ app2 out, make_step app (some "Вперёд") ph pd = .ok (app2, out) ∧
      app2.heads = app.heads ∧ app2.waiting_for_exit = false ∧
      app2.state.length = 8 ∧ app2.state.width = 5 ∧
      app2.state.pos = (k, 2) ∧ app2.state.next_pos = (k + 1, 2) ∧
      out.reportedWon = false := by
  have hnw : ¬ app.state.next_pos.1 = app.state.length - 1 := by
    rw [hnext, hl]
    simp
    omega
  have hfb : ¬ forced_in_banned (some "Вперёд") (base_banned (committed app.state)) := by
    intro hmem
    have hm : "Вперёд" ∈ base_banned (committed app.state) := hmem
    rcases mem_base_banned.mp hm with ⟨he, -⟩ | ⟨-, hc⟩ | ⟨he, -⟩ | ⟨he, -⟩
    · exact absurd he (by decide)
    · simp only [committed_pos, committed_length, hnext, hl] at hc
      simp at hc
      omega
    · exact absurd he (by decide)
    · exact absurd he (by decide)
  obtain ⟨head, hch⟩ := choose_ok_total_uniform app.heads ["Правда", "Ложь", "Повтор"]
    (match app.state.head with | none => ["Повтор"] | some _ => []) ph "Правда"
    (by rw [hH]) (by decide)
    (by cases app.state.head <;> simp)
  have hdr : (match (some "Вперёд" : Option String) with
      | some f => if f = "" then
          app.directions.choose (turn_banned (committed app.state)
            (lying_head head app.state.head)) pd
        else Except.ok f
      | none => app.directions.choose (turn_banned (committed app.state)
          (lying_head head app.state.head)) pd) = .ok "Вперёд" := by
    simp
  refine ⟨_, _, make_step_step app (some "Вперёд") ph pd head "Вперёд" hw hnw hfb hch hdr,
    rfl, hw, hl, hwd, hnext, ?_, rfl⟩
  show (app.state.next_pos.1 + (displacement "Вперёд").1,
        app.state.next_pos.2 + (displacement "Вперёд").2) = (k + 1, 2)
  rw [hnext]
  simp [displacement]

/-!  ## Claim theorems  -/
/-- C1: the claim says a `Repeat` head resolves to the truth-value of the
nearest preceding non-`Repeat` head through any chain of `Repeat`s.  The
code resolves one step back on the raw label only: for the drawn sequence
`[Ложь, Повтор, Повтор]` the engine resolves `[lying, lying, truthful]`
whereas chain resolution demands `[lying, lying, lying]`; the claim's own
example `[Правда, Повтор, Повтор, Ложь, Повтор]` happens to agree.  The
last conjunct exhibits the bug inside the engine itself: with heads drawn
`Ложь, Повтор, Повтор` (forced decoy moves), the third announcement is the
unflipped direction `Вверх` (truthful) instead of the lie `Вниз`. -/
theorem C1_repeat_chain_code_eval :
    honesty_trace none ["Ложь", "Повтор", "Повтор"] = [true, true, false] ∧
    chain_resolved_from false ["Ложь", "Повтор", "Повтор"] = [true, true, true] ∧
    honesty_trace none ["Правда", "Повтор", "Повтор", "Ложь", "Повтор"] =
      [false, false, false, true, true] ∧
    (run app85 [(some "Вверх", 1, 0), (some "Вверх", 2, 0), (some "Вверх", 2, 0)]).toOption.map
      (fun r => (r.2.map (fun o => o.headDrawn), r.2.map (fun o => o.direction),
                 r.2.map (fun o => o.announced))) =
      some ([some "Ложь", some "Повтор", some "Повтор"],
            [some "Вверх", some "Вверх", some "Вверх"],
            [some "Вниз", some "Вниз", some "Вверх"]) :=
  ⟨by decide, by decide, by decide, by decide⟩

/-- C2 counterexample: on the freshly mounted 8×5 grid, after exactly 7
forced-`Вперёд` advance calls the committed position is still `(6, 2)`,
the staged position is `(7, 2)`, the engine is not terminal and `Won` has
never been reported — the win is only committed and reported on the 8th
call, not the 7th as claimed. -/
theorem C2_counterexample :
    on_mount (demoCfg 8 5) false = .ok app85 ∧
    (run app85 (List.replicate 7 (some "Вперёд", 0, 0))).toOption.map
      (fun r => (r.1.state.pos, r.1.state.next_pos, r.1.waiting_for_exit,
                 r.2.map (fun o => o.reportedWon))) =
      some ((6, 2), (7, 2), false, List.replicate 7 false) :=
  ⟨by decide, by decide⟩

/-- C2 amended: for every draw oracle, 7 forced-`Вперёд` calls stage row 7
in `next_pos`; the 8th call commits `(7, 2)`, reports `Won` (exactly once
across the 8 calls), and afterwards every further call leaves the state
unchanged and processes no turn. -/
theorem C2_amended (p1 p2 p3 p4 p5 p6 p7 p8 : Nat × Nat) :
    on_mount (demoCfg 8 5) false = .ok app85 ∧
    ∃ app2 outs,
      run app85 [(some "Вперёд", p1), (some "Вперёд", p2), (some "Вперёд", p3),
                 (some "Вперёд", p4), (some "Вперёд", p5), (some "Вперёд", p6),
                 (some "Вперёд", p7), (some "Вперёд", p8)] = .ok (app2, outs) ∧
      app2.state.pos = (7, 2) ∧ app2.state.next_pos = (7, 2) ∧
      app2.waiting_for_exit = true ∧
      outs.map (fun o => o.reportedWon) =
        [false, false, false, false, false, false, false, true] ∧
      (∀ forced ph pd, ∃ app3 out3,
        make_step app2 forced ph pd = .ok (app3, out3) ∧
        app3.state = app2.state ∧ app3.waiting_for_exit = true ∧
        out3.headDrawn = none ∧ out3.direction = none) := by
  refine ⟨by decide, ?_⟩
  obtain ⟨ph1, pd1⟩ := p1
  obtain ⟨ph2, pd2⟩ := p2
  obtain ⟨ph3, pd3⟩ := p3
  obtain ⟨ph4, pd4⟩ := p4
  obtain ⟨ph5, pd5⟩ := p5
  obtain ⟨ph6, pd6⟩ := p6
  obtain ⟨ph7, pd7⟩ := p7
  obtain ⟨ph8, pd8⟩ := p8
  obtain ⟨a1, o1, hs1, hH1, hw1, hl1, hwd1, hp1, hn1, hr1⟩ :=
    step_fwd app85 ph1 pd1 0 (by decide) (by decide) (by decide) (by decide)
      (by decide) (by decide) (by decide)
  have hn1' : a1.state.next_pos = (1, 2) := by rw [hn1]; norm_num
  obtain ⟨a2, o2, hs2, hH2, hw2, hl2, hwd2, hp2, hn2, hr2⟩ :=
    step_fwd a1 ph2 pd2 1 (hH1.trans (by decide)) hw1 hl1 hwd1 hn1' (by decide) (by decide)
  have hn2' : a2.state.next_pos = (2, 2) := by rw [hn2]; norm_num
  obtain ⟨a3, o3, hs3, hH3, hw3, hl3, hwd3, hp3, hn3, hr3⟩ :=
    step_fwd a2 ph3 pd3 2 (hH2.trans (hH1.trans (by decide))) hw2 hl2 hwd2 hn2'
      (by decide) (by decide)
  have hn3' : a3.state.next_pos = (3, 2) := by rw [hn3]; norm_num
  obtain ⟨a4, o4, hs4, hH4, hw4, hl4, hwd4, hp4, hn4, hr4⟩ :=
    step_fwd a3 ph4 pd4 3 (hH3.trans (hH2.trans (hH1.trans (by decide)))) hw3 hl3 hwd3 hn3'
      (by decide) (by decide)
  have hn4' : a4.state.next_pos = (4, 2) := by rw [hn4]; norm_num
  obtain ⟨a5, o5, hs5, hH5, hw5, hl5, hwd5, hp5, hn5, hr5⟩ :=
    step_fwd a4 ph5 pd5 4 (hH4.trans (hH3.trans (hH2.trans (hH1.trans (by decide)))))
      hw4 hl4 hwd4 hn4' (by decide) (by decide)
  have hn5' : a5.state.next_pos = (5, 2) := by rw [hn5]; norm_num
  obtain ⟨a6, o6, hs6, hH6, hw6, hl6, hwd6, hp6, hn6, hr6⟩ :=
    step_fwd a5 ph6 pd6 5
      (hH5.trans (hH4.trans (hH3.trans (hH2.trans (hH1.trans (by decide))))))
      hw5 hl5 hwd5 hn5' (by decide) (by decide)
  have hn6' : a6.state.next_pos = (6, 2) := by rw [hn6]; norm_num
  obtain ⟨a7, o7, hs7, hH7, hw7, hl7, hwd7, hp7, hn7, hr7⟩ :=
    step_fwd a6 ph7 pd7 6
      (hH6.trans (hH5.trans (hH4.trans (hH3.trans (hH2.trans (hH1.trans (by decide)))))))
      hw6 hl6 hwd6 hn6' (by decide) (by decide)
  have hn7' : a7.state.next_pos = (7, 2) := by rw [hn7]; norm_num
  have hs8 := make_step_final a7 (some "Вперёд") ph8 pd8
    (Or.inr (by rw [hn7', hl7]; decide))
  have hrun := run_cons hs1 (run_cons hs2 (run_cons hs3 (run_cons hs4 (run_cons hs5
    (run_cons hs6 (run_cons hs7 (run_cons hs8 (rfl :
      run _ ([] : List (Option String × Nat × Nat)) = .ok (_, [])))))))))
  refine ⟨_, _, hrun, hn7', hn7', rfl, ?_, ?_⟩
  · simp only [List.map]
    rw [hr1, hr2, hr3, hr4, hr5, hr6, hr7]
    simp [hn7', hl7]
  · intro f ph pd
    exact ⟨_, _, make_step_final _ f ph pd (Or.inl rfl), committed_eq_self rfl,
      rfl, rfl, rfl⟩

/-- Witness for the amended C2 at the all-zero draw oracle. -/
theorem C2_amended_witness :
    on_mount (demoCfg 8 5) false = .ok app85 ∧
    ∃ app2 outs,
      run app85 [(some "Вперёд", (0, 0)), (some "Вперёд", (0, 0)), (some "Вперёд", (0, 0)),
                 (some "Вперёд", (0, 0)), (some "Вперёд", (0, 0)), (some "Вперёд", (0, 0)),
                 (some "Вперёд", (0, 0)), (some "Вперёд", (0, 0))] = .ok (app2, outs) ∧
      app2.state.pos = (7, 2) ∧ app2.state.next_pos = (7, 2) ∧
      app2.waiting_for_exit = true ∧
      outs.map (fun o => o.reportedWon) =
        [false, false, false, false, false, false, false, true] ∧
      (∀ forced ph pd, ∃ app3 out3,
        make_step app2 forced ph pd = .ok (app3, out3) ∧
        app3.state = app2.state ∧ app3.waiting_for_exit = true ∧
        out3.headDrawn = none ∧ out3.direction = none) :=
  C2_amended (0, 0) (0, 0) (0, 0) (0, 0) (0, 0) (0, 0) (0, 0) (0, 0)

/-- C3 counterexample: on the 2×2 grid the start position `(0, 1)` is
reachable (it is the mounted start) and non-terminal, yet the very first
turn, when the drawn head is `Ложь`, computes a ban list containing all
four cardinal directions at once. -/
theorem C3_counterexample :
    on_mount (demoCfg 2 2) false = .ok app22 ∧
    Reachable (demoCfg 2 2) app22 ∧
    2 ≤ (demoCfg 2 2).length ∧ 2 ≤ (demoCfg 2 2).width ∧
    app22.state.next_pos.1 ≠ app22.state.length - 1 ∧
    (make_step app22 (some "Влево") 1 0).toOption.map
      (fun r => (r.2.headDrawn,
        decide ("Вперёд" ∈ r.2.banned) && decide ("Назад" ∈ r.2.banned) &&
        decide ("Влево" ∈ r.2.banned) && decide ("Вправо" ∈ r.2.banned))) =
      some (some "Ложь", true) :=
  ⟨by decide, Reachable.mount false app22 (by decide), by decide, by decide,
   by decide, by decide⟩

/-- C3 amended: the decoys `Вверх`/`Вниз` are never banned, so at least one
direction always remains legal for the draw; and when the head is not
lying the four cardinals are never simultaneously banned at a non-terminal
in-bounds position.  (When the head lies at a row-0 corner, all four
cardinals can be banned, as the counterexample shows.) -/
theorem C3_amended (s : GameState) (lying : Prop) [hdec : Decidable lying]
    (hl : 2 ≤ s.length) (hw : 2 ≤ s.width)
    (hy0 : 0 ≤ s.pos.1) (hy1 : s.pos.1 ≤ s.length - 1)
    (hx0 : 0 ≤ s.pos.2) (hx1 : s.pos.2 ≤ s.width - 1)
    (hnt : s.pos.1 ≠ s.length - 1) :
    "Вверх" ∉ turn_banned s lying ∧ "Вниз" ∉ turn_banned s lying ∧
    (¬ lying → ¬ ("Вперёд" ∈ turn_banned s lying ∧ "Назад" ∈ turn_banned s lying ∧
      "Влево" ∈ turn_banned s lying ∧ "Вправо" ∈ turn_banned s lying)) := by
  refine ⟨up_not_turn_banned, down_not_turn_banned, ?_⟩
  rintro hnl ⟨hf, -⟩
  have heq : turn_banned s lying = base_banned s := by
    unfold turn_banned
    rw [if_neg hnl]
  rw [heq] at hf
  rcases mem_base_banned.mp hf with ⟨he, -⟩ | ⟨-, hc⟩ | ⟨he, -⟩ | ⟨he, -⟩
  · exact absurd he (by decide)
  · omega
  · exact absurd he (by decide)
  · exact absurd he (by decide)

/-- C3 amended, witnessed at the reachable non-terminal position `(0, 2)`
of the 8×5 grid with a lying head. -/
theorem C3_amended_witness :
    (2 ≤ app85.state.length ∧ 2 ≤ app85.state.width ∧
     0 ≤ app85.state.pos.1 ∧ app85.state.pos.1 ≤ app85.state.length - 1 ∧
     0 ≤ app85.state.pos.2 ∧ app85.state.pos.2 ≤ app85.state.width - 1 ∧
     app85.state.pos.1 ≠ app85.state.length - 1) ∧
    ("Вверх" ∉ turn_banned app85.state True ∧ "Вниз" ∉ turn_banned app85.state True ∧
     (¬ True → ¬ ("Вперёд" ∈ turn_banned app85.state True ∧
       "Назад" ∈ turn_banned app85.state True ∧
       "Влево" ∈ turn_banned app85.state True ∧
       "Вправо" ∈ turn_banned app85.state True))) :=
  ⟨⟨by decide, by decide, by decide, by decide, by decide, by decide, by decide⟩,
   C3_amended app85.state True (by decide) (by decide) (by decide) (by decide)
     (by decide) (by decide) (by decide)⟩

/-- C4: on every reachable app state of a run whose configuration has
positive dimensions, both the committed and the staged position lie inside
the grid bounds. -/
theorem C4_position_in_bounds (cfg : RawConfig) (app : PuzzleApp)
    (hl : 1 ≤ cfg.length) (hw : 1 ≤ cfg.width) (hr : Reachable cfg app) :
    0 ≤ app.state.pos.1 ∧ app.state.pos.1 ≤ cfg.length - 1 ∧
    0 ≤ app.state.pos.2 ∧ app.state.pos.2 ≤ cfg.width - 1 ∧
    0 ≤ app.state.next_pos.1 ∧ app.state.next_pos.1 ≤ cfg.length - 1 ∧
    0 ≤ app.state.next_pos.2 ∧ app.state.next_pos.2 ≤ cfg.width - 1 := by
  obtain ⟨-, -, -, -, h1, h2, h3, h4, h5, h6, h7, h8⟩ := reachable_inv hr
  exact ⟨h1, h2, h3, h4, h5, h6, h7, h8⟩

/-- Witness for C4 at the freshly mounted 8×5 app. -/
theorem C4_witness :
    (1 ≤ (demoCfg 8 5).length ∧ 1 ≤ (demoCfg 8 5).width ∧
     Reachable (demoCfg 8 5) app85) ∧
    (0 ≤ app85.state.pos.1 ∧ app85.state.pos.1 ≤ (demoCfg 8 5).length - 1 ∧
     0 ≤ app85.state.pos.2 ∧ app85.state.pos.2 ≤ (demoCfg 8 5).width - 1 ∧
     0 ≤ app85.state.next_pos.1 ∧ app85.state.next_pos.1 ≤ (demoCfg 8 5).length - 1 ∧
     0 ≤ app85.state.next_pos.2 ∧ app85.state.next_pos.2 ≤ (demoCfg 8 5).width - 1) :=
  ⟨⟨by decide, by decide, Reachable.mount false app85 (by decide)⟩,
   C4_position_in_bounds (demoCfg 8 5) app85 (by decide) (by decide)
     (Reachable.mount false app85 (by decide))⟩

/-- C5: on a ≥2×≥2 grid with positive direction weights, `make_step` never
raises: the head draw excludes at most `Повтор` from three options and the
direction draw never bans the decoys, so both remaining pools are
non-empty on every reachable state. -/
theorem C5_no_exhausted_options (cfg : RawConfig) (app : PuzzleApp)
    (hl : 2 ≤ cfg.length) (hw : 2 ≤ cfg.width)
    (hwts : 0 < cfg.forward ∧ 0 < cfg.backward ∧ 0 < cfg.leftward ∧
      0 < cfg.rightward ∧ 0 < cfg.upward ∧ 0 < cfg.downward)
    (hr : Reachable cfg app) (forced : Option String) (ph pd : Nat) :
    ∃ r, make_step app forced ph pd = .ok r := by
  obtain ⟨hH, hD, -⟩ := reachable_inv hr
  refine make_step_total app forced ph pd ["Правда", "Ложь", "Повтор"] (by rw [hH])
    (by decide)
    [("Вперёд", cfg.forward), ("Назад", cfg.backward), ("Влево", cfg.leftward),
     ("Вправо", cfg.rightward), ("Вверх", cfg.upward), ("Вниз", cfg.downward)]
    (by rw [hD]) ?_ (by simp)
  intro kv hkv
  obtain ⟨h1, h2, h3, h4, h5, h6⟩ := hwts
  simp only [List.mem_cons, List.not_mem_nil, or_false] at hkv
  rcases hkv with rfl | rfl | rfl | rfl | rfl | rfl <;> assumption

/-- Witness for C5 at the freshly mounted 2×2 app with a random step. -/
theorem C5_witness :
    (2 ≤ (demoCfg 2 2).length ∧ 2 ≤ (demoCfg 2 2).width ∧
     0 < (demoCfg 2 2).forward ∧ Reachable (demoCfg 2 2) app22) ∧
    ∃ r, make_step app22 none 0 0 = .ok r :=
  ⟨⟨by decide, by decide, by decide, Reachable.mount false app22 (by decide)⟩,
   C5_no_exhausted_options (demoCfg 2 2) app22 (by decide) (by decide)
     ⟨by decide, by decide, by decide, by decide, by decide, by decide⟩
     (Reachable.mount false app22 (by decide)) none 0 0⟩

/-- C6 counterexample: a configuration with a zero direction weight is
accepted without any failure — `read_config` passes the weights through
unchecked and the weighted `ChoiceSet` is constructed as a bare frozen
dataclass; no `InvalidWeight` failure exists anywhere in the code. -/
theorem C6_counterexample :
    zeroWeightCfg.forward = 0 ∧
    (on_mount zeroWeightCfg false).toOption.map (fun a => a.directions.data) =
      some (.weighted [("Вперёд", 0), ("Назад", 1), ("Влево", 1), ("Вправо", 1),
                       ("Вверх", 1), ("Вниз", 1)]) :=
  ⟨by decide, by decide⟩

/-- C6 amended: construction never validates weights — any configuration
with valid dimensions and matching trait lists mounts successfully, with
whatever weights (zero or negative included) stored verbatim in the
weighted direction container. -/
theorem C6_amended (c : RawConfig) (hl : 0 < c.length) (hw : 0 < c.width)
    (ht : c.useless_titles.length = c.useless_data.length) :
    ∃ app, on_mount c false = .ok app ∧
      app.directions = ⟨"Направление движения", .weighted
        [("Вперёд", c.forward), ("Назад", c.backward), ("Влево", c.leftward),
         ("Вправо", c.rightward), ("Вверх", c.upward), ("Вниз", c.downward)]⟩ := by
  unfold on_mount read_config
  rw [if_neg (by omega), if_neg (fun hne => hne ht)]
  exact ⟨_, rfl, rfl⟩

/-- Witness for the amended C6 at a configuration with a negative weight. -/
theorem C6_amended_witness :
    (0 < negWeightCfg.length ∧ 0 < negWeightCfg.width ∧
     negWeightCfg.useless_titles.length = negWeightCfg.useless_data.length ∧
     negWeightCfg.backward < 0) ∧
    ∃ app, on_mount negWeightCfg false = .ok app ∧
      app.directions = ⟨"Направление движения", .weighted
        [("Вперёд", negWeightCfg.forward), ("Назад", negWeightCfg.backward),
         ("Влево", negWeightCfg.leftward), ("Вправо", negWeightCfg.rightward),
         ("Вверх", negWeightCfg.upward), ("Вниз", negWeightCfg.downward)]⟩ :=
  ⟨⟨by decide, by decide, by decide, by decide⟩,
   C6_amended negWeightCfg (by decide) (by decide) (by decide)⟩

/-- C7 counterexample: three forced-`Влево` calls on the 8×5 grid.  After
two calls the committed position is `(0, 1)` with `(0, 0)` staged.  The
third call forces `Влево`, which is in that turn's ban list
`["Назад", "Влево"]`: no head is drawn (the no-op), yet the committed
position changes from `(0, 1)` to `(0, 0)` because the call first commits
the previously staged move. -/
theorem C7_counterexample :
    on_mount (demoCfg 8 5) false = .ok app85 ∧
    (run app85 [(some "Влево", 0, 0), (some "Влево", 0, 0)]).toOption.map
      (fun r => (r.1.state.pos, r.1.state.next_pos)) = some ((0, 1), (0, 0)) ∧
    (run app85 [(some "Влево", 0, 0), (some "Влево", 0, 0),
                (some "Влево", 0, 0)]).toOption.map
      (fun r => (r.1.state.pos, r.2.map (fun o => o.headDrawn),
                 r.2.map (fun o => o.banned))) =
      some ((0, 0), [some "Правда", some "Правда", none],
            [["Назад"], ["Назад"], ["Назад", "Влево"]]) :=
  ⟨by decide, by decide, by decide⟩

/-- C7 amended: forcing a banned direction on a non-terminal state is a
no-op turn for the staged game: the pending position and the stored head
are unchanged, no head kind is drawn, nothing is announced and no
exception is raised; the only state change is that the previously staged
move is committed (`pos := next_pos`). -/
theorem C7_amended (app : PuzzleApp) (f : String) (ph pd : Nat)
    (hw : app.waiting_for_exit = false)
    (hnt : app.state.next_pos.1 ≠ app.state.length - 1)
    (hf : f ∈ base_banned (committed app.state)) :
    ∃ app2 out, make_step app (some f) ph pd = .ok (app2, out) ∧
      app2.state.next_pos = app.state.next_pos ∧
      app2.state.head = app.state.head ∧
      app2.state.pos = app.state.next_pos ∧
      app2.waiting_for_exit = false ∧
      out.headDrawn = none ∧ out.direction = none ∧ out.announced = none :=
  ⟨_, _, make_step_noop app (some f) ph pd hw hnt hf,
   rfl, rfl, rfl, hw, rfl, rfl, rfl⟩

/-- Witness for the amended C7: forcing the banned `Назад` on the fresh
8×5 app. -/
theorem C7_amended_witness :
    (app85.waiting_for_exit = false ∧
     app85.state.next_pos.1 ≠ app85.state.length - 1 ∧
     "Назад" ∈ base_banned (committed app85.state)) ∧
    ∃ app2 out, make_step app85 (some "Назад") 0 0 = .ok (app2, out) ∧
      app2.state.next_pos = app85.state.next_pos ∧
      app2.state.head = app85.state.head ∧
      app2.state.pos = app85.state.next_pos ∧
      app2.waiting_for_exit = false ∧
      out.headDrawn = none ∧ out.direction = none ∧ out.announced = none :=
  ⟨⟨rfl, by decide, by decide⟩,
   C7_amended app85 "Назад" 0 0 rfl (by decide) (by decide)⟩

/-- C8: in every completed turn the announced direction is the actual
direction when the resolved kind is truthful; when it is lying, it is the
flipped actual direction, unless that flipped direction is in the turn's
(pre-move, possibly extended) ban list, in which case the sentinel
`"Выйди за поле"` is announced instead. -/
theorem C8_announced_direction (app : PuzzleApp) (forced : Option String) (ph pd : Nat)
    (app2 : PuzzleApp) (out : StepOutput) (head dir : String)
    (hstep : make_step app forced ph pd = .ok (app2, out))
    (hh : out.headDrawn = some head) (hd : out.direction = some dir) :
    (determine_honesty head app.state.head = false → out.announced = some dir) ∧
    (determine_honesty head app.state.head = true → flip_direction dir ∉ out.banned →
      out.announced = some (flip_direction dir)) ∧
    (determine_honesty head app.state.head = true → flip_direction dir ∈ out.banned →
      out.announced = some "Выйди за поле") := by
  obtain ⟨-, -, -, -, -, hc⟩ := make_step_ok_cases hstep
  rcases hc with ⟨-, -, -, -, hhd, -⟩ | ⟨-, -, -, -, -, -, hhd, -⟩ |
    ⟨-, -, -, head2, dir2, hch, hout, -⟩
  · rw [hhd] at hh
    exact absurd hh (by simp)
  · rw [hhd] at hh
    exact absurd hh (by simp)
  · subst hout
    have hhead : head2 = head := by simpa using hh
    have hdir : dir2 = dir := by simpa using hd
    subst hhead
    subst hdir
    refine ⟨?_, ?_, ?_⟩
    · intro hfalse
      simp [direction_text, hfalse]
    · intro htrue hnmem
      simp only [StepOutput.banned] at hnmem
      simp [direction_text, htrue, hnmem]
    · intro htrue hmem
      simp only [StepOutput.banned] at hmem
      simp [direction_text, htrue, hmem]
/-- Witness for C8: a first random step on the 8×5 app drawing the `Ложь`
head and the `Влево` direction announces the flipped `Вправо`. -/
theorem C8_witness :
    ∃ app2 out, make_step app85 none 1 0 = .ok (app2, out) ∧
      out.headDrawn = some "Ложь" ∧ out.direction = some "Влево" ∧
      out.announced = some "Вправо" := by
  have hstep : make_step app85 none 1 0 = .ok
      ({ app85 with state := { pos := (0, 2), next_pos := (0, 1), head := some "Ложь",
                               width := 5, length := 8 } },
       { reportedWon := false, headDrawn := some "Ложь", direction := some "Влево",
         announced := some "Вправо", banned := ["Назад", "Вперёд"] }) := by
    decide
  have h := C8_announced_direction app85 none 1 0 _ _ "Ложь" "Влево" hstep rfl rfl
  exact ⟨_, _, hstep, rfl, rfl, h.2.1 (by decide) (by decide)⟩

/-- C9 counterexample: for the dict-backed weighted set
`{"a": 0, "b": 5}` and the exclusion `E = {"b"}` — a proper subset of the
options — the remaining pool is the non-empty `{"a": 0}`, whose weight
total is zero: `random.choices` raises `ValueError` at draw time, so
`select` does not return an option at all, let alone a non-member of `E`. -/
theorem C9_counterexample :
    "a" ∈ zeroTotalChoice.data.options ∧ "b" ∈ zeroTotalChoice.data.options ∧
    "a" ∉ ["b"] ∧
    zeroTotalChoice.data.remaining ["b"] = ["a"] ∧
    zeroTotalChoice.choose ["b"] 0 =
      .error "Total of weights must be greater than zero" :=
  ⟨by decide, by decide, by decide, by decide, by decide⟩

/-- C9 amended: a draw never returns a member of the exclusion set, for
every draw outcome; and it does return an option for every list-backed
uniform set whose options are not all excluded, and for every dict-backed
weighted set with positive weights whose keys are not all excluded.  (A
weighted set whose remaining weights total zero or less raises at draw
time instead of returning, as the counterexample shows.) -/
theorem C9_amended (cs : ChoiceSet) (exclude : List String) (pick : Nat) :
    (∀ y, cs.choose exclude pick = .ok y → y ∉ exclude) ∧
    (∀ opts x, cs.data = .uniform opts → x ∈ opts → x ∉ exclude →
      ∃ y, cs.choose exclude pick = .ok y ∧ y ∉ exclude) ∧
    (∀ opts x, cs.data = .weighted opts → (∀ kv ∈ opts, 0 < kv.2) →
      x ∈ opts.map Prod.fst → x ∉ exclude →
      ∃ y, cs.choose exclude pick = .ok y ∧ y ∉ exclude) := by
  refine ⟨fun y hy => choose_ok_not_excluded hy, ?_, ?_⟩
  · intro opts x hdata hx hnx
    obtain ⟨y, hy⟩ := choose_ok_total_uniform cs opts exclude pick x hdata hx hnx
    exact ⟨y, hy, choose_ok_not_excluded hy⟩
  · intro opts x hdata hpos hx hnx
    obtain ⟨y, hy⟩ := choose_ok_total_weighted cs opts exclude pick x hdata hpos hx hnx
    exact ⟨y, hy, choose_ok_not_excluded hy⟩

/-- Witness for the amended C9: a uniform draw with `Повтор` excluded and a
positive-weight weighted draw with `Назад` excluded both return a
non-excluded option. -/
theorem C9_amended_witness :
    (∃ y, (ChoiceSet.mk "Головы" (.uniform ["Правда", "Ложь", "Повтор"])).choose
       ["Повтор"] 5 = .ok y ∧ y ∉ ["Повтор"]) ∧
    (∃ y, (ChoiceSet.mk "Направление движения"
       (.weighted [("Вперёд", 2), ("Назад", 1)])).choose ["Назад"] 3 = .ok y ∧
       y ∉ ["Назад"]) :=
  ⟨(C9_amended (ChoiceSet.mk "Головы" (.uniform ["Правда", "Ложь", "Повтор"]))
      ["Повтор"] 5).2.1 ["Правда", "Ложь", "Повтор"] "Правда" rfl (by decide) (by decide),
   (C9_amended (ChoiceSet.mk "Направление движения"
      (.weighted [("Вперёд", 2), ("Назад", 1)])) ["Назад"] 3).2.2
     [("Вперёд", 2), ("Назад", 1)] "Вперёд" rfl (by decide) (by decide) (by decide)⟩

/-- C10: every mount (initial start and every restart — the `restart`
button reruns `on_mount`) produces a state with position
`(0, width / 2)`, the staged position equal to it and no stored head, so
the first head draw after any (re)start excludes `Повтор`. -/
theorem C10_fresh_state (cfg : RawConfig) (app : PuzzleApp)
    (hm : on_mount cfg false = .ok app) :
    app.state.pos = (0, cfg.width / 2) ∧
    app.state.next_pos = app.state.pos ∧
    app.state.head = none ∧
    (∀ appPrev ph pd, appPrev.waiting_for_exit = false →
      on_button_pressed cfg appPrev "restart" ph pd = (app, .restarted)) ∧
    (∀ forced ph pd app2 out, make_step app forced ph pd = .ok (app2, out) →
      out.headDrawn ≠ some "Повтор") := by
  obtain ⟨-, -, -, -, hstate, -⟩ := on_mount_ok_inv hm
  refine ⟨by rw [hstate], by rw [hstate], by rw [hstate], ?_, ?_⟩
  · intro appPrev ph pd hwPrev
    simp [on_button_pressed, hwPrev, hm]
  · intro forced ph pd app2 out hstep
    obtain ⟨-, -, -, -, -, hc⟩ := make_step_ok_cases hstep
    rcases hc with ⟨-, -, -, -, hhd, -⟩ | ⟨-, -, -, -, -, -, hhd, -⟩ |
      ⟨-, -, -, head, dir, hch, hout, -⟩
    · rw [hhd]; simp
    · rw [hhd]; simp
    · subst hout
      have hexcl : app.state.head = none := by rw [hstate]
      have hne := choose_ok_not_excluded hch
      rw [hexcl] at hne
      simp at hne ⊢
      exact hne

/-- Witness for C10 at the 8×5 configuration. -/
theorem C10_witness :
    on_mount (demoCfg 8 5) false = .ok app85 ∧
    app85.state.pos = (0, (demoCfg 8 5).width / 2) ∧
    app85.state.next_pos = app85.state.pos ∧
    app85.state.head = none :=
  ⟨by decide, (C10_fresh_state (demoCfg 8 5) app85 (by decide)).1,
   (C10_fresh_state (demoCfg 8 5) app85 (by decide)).2.1,
   (C10_fresh_state (demoCfg 8 5) app85 (by decide)).2.2.1⟩

end TileRandomizer
